import Mathlib

/-!
Verification of the Website-Status-Checker repository
(src/website_project/src/main.rs) against its natural-language
specification.

The embedding models:
* `WebsiteStatus` and `WebsiteStatus.to_json_string` (serializer),
  with durations carried as integer milliseconds and timestamps as
  integer seconds since the Unix epoch (the code serializes
  `response_time.as_millis()` and
  `timestamp.duration_since(UNIX_EPOCH).as_secs()`);
* the per-URL retry loop of a worker (`retryFrom` / `runRetryLoop`),
  parametrized by an oracle giving the outcome of each GET attempt;
* the `--workers` argument handling (`parseWorkersValue`) with a
  faithful model of Rust's `str::parse::<usize>`;
* the concurrent dispatch/collect pipeline of `main` as a small-step
  transition system (`Step` / `Reaches`) over channel queues;
* an executable RFC 8259 JSON validity checker (`jsonValid`), used to
  settle the claims about the serialized output being valid JSON.
-/

deriving instance DecidableEq for Except

/-- Outcome record for one URL, mirroring `struct WebsiteStatus` in main.rs.
`action_status` is `Result<u16, String>`; `response_time` is the duration in
integer milliseconds; `timestamp` is seconds since the Unix epoch. -/
structure WebsiteStatus where
  url : String
  action_status : Except String Nat
  response_time : Nat
  timestamp : Nat
deriving DecidableEq, Repr

/-- Decimal digit character for a value below ten, as produced by Rust's
integer `Display` implementation. -/
def natDigitChar (n : Nat) : Char := Char.ofNat (48 + n)

/-- Fuel-driven decimal rendering helper (most significant digit first). -/
def natReprAux : Nat → Nat → List Char
  | 0, _ => []
  | fuel + 1, n =>
    if n < 10 then [natDigitChar n]
    else natReprAux fuel (n / 10) ++ [natDigitChar (n % 10)]

/-- Decimal rendering of a nonnegative integer, modelling Rust's `Display`
for the integers serialized by `to_json_string` (no sign, no leading zeros). -/
def natRepr (n : Nat) : List Char := natReprAux (n + 1) n

/-- Model of `s.replace('"', "\\\"")` from `to_json_string`: every double
quote is replaced by a backslash followed by a quote; no other character is
touched. -/
def escQuote (l : List Char) : List Char :=
  l.flatMap fun c => if c = '"' then ['\\', '"'] else [c]

/-- Literal chunk of the serialized object before the url value. -/
def jsonPartA : List Char := '\x7b' :: ('\n' :: "    \"url\": \"".data)

/-- Literal chunk between the url value and the status value. -/
def jsonPartB : List Char := "\",\n    \"status\": ".data

/-- Literal chunk between the status value and the response time. -/
def jsonPartC : List Char := ",\n    \"response_time_ms\": ".data

/-- Literal chunk between the response time and the timestamp. -/
def jsonPartD : List Char := ",\n    \"timestamp\": ".data

/-- Literal chunk closing the serialized object. -/
def jsonPartE : List Char := '\n' :: ['\x7d']

/-- Serialized form of the `status` field: the bare code for `Ok`, or the
quote-escaped error message in double quotes for `Err`. -/
def statusChars (r : Except String Nat) : List Char :=
  match r with
  | .ok code => natRepr code
  | .error e => '"' :: (escQuote e.data ++ ['"'])

/-- Everything of the serialized object after its opening brace line. -/
def objTail (w : WebsiteStatus) : List Char :=
  escQuote w.url.data ++ jsonPartB ++ statusChars w.action_status ++
    jsonPartC ++ natRepr w.response_time ++ jsonPartD ++
    natRepr w.timestamp ++ jsonPartE

/-- Character-level model of `WebsiteStatus::to_json_string`. -/
def toJsonChars (w : WebsiteStatus) : List Char := jsonPartA ++ objTail w

/-- Model of `WebsiteStatus::to_json_string` as a string. -/
def toJsonString (w : WebsiteStatus) : String := String.mk (toJsonChars w)

/-- Model of `Vec<String>::join` on character lists. -/
def joinSep (sep : List Char) : List (List Char) → List Char
  | [] => []
  | [x] => x
  | x :: y :: xs => x ++ sep ++ joinSep sep (y :: xs)

/-- Separator `",\n"` used between serialized records. -/
def jsonSep : List Char := ',' :: ['\n']

/-- Character-level model of the JSON array assembly in `main`:
`format!("[\n{}\n]", parts.join(",\n"))`. -/
def resultsChars (rs : List WebsiteStatus) : List Char :=
  '[' :: '\n' :: (joinSep jsonSep (rs.map toJsonChars) ++ ('\n' :: [']']))

/-- Model of the full serialized report written to `status.json`. -/
def resultsJson (rs : List WebsiteStatus) : String := String.mk (resultsChars rs)

/-- JSON insignificant whitespace (RFC 8259 section 2). -/
def isJsonWs (c : Char) : Bool := c = ' ' || c = '\n' || c = '\t' || c = '\r'

/-- ASCII decimal digit test. -/
def isDigitC (c : Char) : Bool := '0' ≤ c && c ≤ '9'

/-- ASCII hexadecimal digit test. -/
def isHexC (c : Char) : Bool :=
  isDigitC c || ('a' ≤ c && c ≤ 'f') || ('A' ≤ c && c ≤ 'F')

/-- Enclosing context of a JSON value under construction. -/
inductive JCtx
  | arr
  | obj
deriving DecidableEq, Repr

/-- Position inside a JSON string literal. -/
inductive StrSub
  | normal
  | escaped
  | hex4
  | hex3
  | hex2
  | hex1
deriving DecidableEq, Repr

/-- Whether the string literal being read is an object key or a value. -/
inductive StrRole
  | asValue
  | asKey
deriving DecidableEq, Repr

/-- Position inside a JSON number literal. -/
inductive NumSub
  | afterMinus
  | zeroDone
  | intDone
  | dotSeen
  | fracDone
  | expSeen
  | expSignSeen
  | expDone
deriving DecidableEq, Repr

/-- State of the streaming RFC 8259 JSON validator. -/
inductive JState
  | value (stk : List JCtx)
  | afterValue (stk : List JCtx)
  | arrStart (stk : List JCtx)
  | objStart (stk : List JCtx)
  | objKeyReq (stk : List JCtx)
  | objColon (stk : List JCtx)
  | inStr (role : StrRole) (sub : StrSub) (stk : List JCtx)
  | lit (rest : List Char) (stk : List JCtx)
  | num (sub : NumSub) (stk : List JCtx)
  | err
deriving DecidableEq, Repr

/-- Dispatch on the first character of a JSON value. -/
def startValue (stk : List JCtx) (c : Char) : JState :=
  if c = '"' then .inStr .asValue .normal stk
  else if c = '\x7b' then .objStart stk
  else if c = '[' then .arrStart stk
  else if c = 't' then .lit ['r', 'u', 'e'] stk
  else if c = 'f' then .lit ['a', 'l', 's', 'e'] stk
  else if c = 'n' then .lit ['u', 'l', 'l'] stk
  else if c = '-' then .num .afterMinus stk
  else if c = '0' then .num .zeroDone stk
  else if isDigitC c then .num .intDone stk
  else .err

/-- Transition after a complete JSON value: whitespace, a separator, or the
closing bracket of the enclosing context. -/
def stepAfter (stk : List JCtx) (c : Char) : JState :=
  if isJsonWs c then .afterValue stk
  else
    match stk with
    | [] => .err
    | .arr :: rest =>
      if c = ',' then .value (.arr :: rest)
      else if c = ']' then .afterValue rest
      else .err
    | .obj :: rest =>
      if c = ',' then .objKeyReq rest
      else if c = '\x7d' then .afterValue rest
      else .err

/-- Transition inside a JSON string literal. -/
def strStep (role : StrRole) (sub : StrSub) (stk : List JCtx) (c : Char) : JState :=
  match sub with
  | .normal =>
    if c = '"' then
      match role with
      | .asValue => .afterValue stk
      | .asKey => .objColon stk
    else if c = '\\' then .inStr role .escaped stk
    else if c.toNat < 32 then .err
    else .inStr role .normal stk
  | .escaped =>
    if c = '"' || c = '\\' || c = '/' || c = 'b' || c = 'f' || c = 'n' || c = 'r' || c = 't' then
      .inStr role .normal stk
    else if c = 'u' then .inStr role .hex4 stk
    else .err
  | .hex4 => if isHexC c then .inStr role .hex3 stk else .err
  | .hex3 => if isHexC c then .inStr role .hex2 stk else .err
  | .hex2 => if isHexC c then .inStr role .hex1 stk else .err
  | .hex1 => if isHexC c then .inStr role .normal stk else .err

/-- Transition inside a JSON number literal. -/
def numStep (sub : NumSub) (stk : List JCtx) (c : Char) : JState :=
  match sub with
  | .afterMinus =>
    if c = '0' then .num .zeroDone stk
    else if isDigitC c then .num .intDone stk
    else .err
  | .zeroDone =>
    if c = '.' then .num .dotSeen stk
    else if c = 'e' || c = 'E' then .num .expSeen stk
    else if isDigitC c then .err
    else stepAfter stk c
  | .intDone =>
    if isDigitC c then .num .intDone stk
    else if c = '.' then .num .dotSeen stk
    else if c = 'e' || c = 'E' then .num .expSeen stk
    else stepAfter stk c
  | .dotSeen => if isDigitC c then .num .fracDone stk else .err
  | .fracDone =>
    if isDigitC c then .num .fracDone stk
    else if c = 'e' || c = 'E' then .num .expSeen stk
    else stepAfter stk c
  | .expSeen =>
    if c = '+' || c = '-' then .num .expSignSeen stk
    else if isDigitC c then .num .expDone stk
    else .err
  | .expSignSeen => if isDigitC c then .num .expDone stk else .err
  | .expDone => if isDigitC c then .num .expDone stk else stepAfter stk c

/-- One character step of the JSON validator. -/
def jsonStep (s : JState) (c : Char) : JState :=
  match s with
  | .err => .err
  | .value stk => if isJsonWs c then .value stk else startValue stk c
  | .afterValue stk => stepAfter stk c
  | .arrStart stk =>
    if isJsonWs c then .arrStart stk
    else if c = ']' then .afterValue stk
    else startValue (.arr :: stk) c
  | .objStart stk =>
    if isJsonWs c then .objStart stk
    else if c = '\x7d' then .afterValue stk
    else if c = '"' then .inStr .asKey .normal stk
    else .err
  | .objKeyReq stk =>
    if isJsonWs c then .objKeyReq stk
    else if c = '"' then .inStr .asKey .normal stk
    else .err
  | .objColon stk =>
    if isJsonWs c then .objColon stk
    else if c = ':' then .value (.obj :: stk)
    else .err
  | .inStr role sub stk => strStep role sub stk c
  | .lit rest stk =>
    match rest with
    | [] => .err
    | r :: rs => if c = r then (if rs = [] then .afterValue stk else .lit rs stk) else .err
  | .num sub stk => numStep sub stk c

/-- Number sub-states in which the number read so far is a complete literal. -/
def numComplete : NumSub → Bool
  | .zeroDone => true
  | .intDone => true
  | .fracDone => true
  | .expDone => true
  | _ => false

/-- Accepting states of the validator at end of input. -/
def jsonAccept : JState → Bool
  | .afterValue [] => true
  | .num sub [] => numComplete sub
  | _ => false

/-- A string is valid RFC 8259 JSON text iff the validator accepts it. -/
def jsonValid (s : String) : Bool :=
  jsonAccept (s.data.foldl jsonStep (.value []))

/-- Characters on which the code's quote-only escaping produces a correct
JSON encoding: anything except a backslash or a control character. -/
def jsonSafeChar (c : Char) : Bool := decide (c ≠ '\\' ∧ 32 ≤ c.toNat)

/-- Records whose strings survive the quote-only escaping of the code. -/
def recSafe (w : WebsiteStatus) : Bool :=
  w.url.data.all jsonSafeChar &&
    (match w.action_status with
     | .error e => e.data.all jsonSafeChar
     | .ok _ => true)

/-- Outcome of one HTTP GET attempt: the `Result` returned by
`client.get(&url).send()` (status code or error message) together with the
elapsed duration measured around the call. -/
structure Attempt where
  result : Except String Nat
  elapsed : Nat
deriving Repr

/-- Values of the worker's mutable loop variables when the retry loop exits,
plus the number of GET attempts that were performed. -/
structure LoopOut where
  last_error : Option String
  response_time : Nat
  status_code : Option Nat
  attemptsMade : Nat
deriving DecidableEq, Repr

/-- The retry loop `for attempt in 0..=retries` from main.rs, unrolled from
attempt index `i` with `r` iterations left. On `Ok` the loop records the
status code and this attempt's elapsed time and breaks; on `Err` it records
the error message and continues (the 100ms backoff sleep has no effect on
the recorded data). `response_time` is only ever assigned on success. -/
def retryFrom (attempts : Nat → Attempt) : Nat → Nat → Option String → Nat → LoopOut
  | 0, i, le, rt => ⟨le, rt, none, i⟩
  | r + 1, i, le, rt =>
    match (attempts i).result with
    | .ok code => ⟨le, (attempts i).elapsed, some code, i + 1⟩
    | .error e => retryFrom attempts r (i + 1) (some e) rt

/-- The whole retry loop for one URL with retry budget `retries`: loop
variables start as `last_error = None`, `response_time = Duration::default()`
(zero), `status_code = None`. -/
def runRetryLoop (attempts : Nat → Attempt) (retries : Nat) : LoopOut :=
  retryFrom attempts (retries + 1) 0 none 0

/-- Construction of the `WebsiteStatus` record after the retry loop.
`none` models the panic of `last_error.unwrap()` in the case
`status_code == None && last_error == None`. -/
def buildStatus (url : String) (o : LoopOut) (ts : Nat) : Option WebsiteStatus :=
  match o.status_code with
  | some code => some ⟨url, .ok code, o.response_time, ts⟩
  | none =>
    match o.last_error with
    | some e => some ⟨url, .error e, o.response_time, ts⟩
    | none => none

/-- Largest value of Rust's 64-bit `usize`. -/
def usizeMax : Nat := 2 ^ 64 - 1

/-- Numeric value of a digit list. -/
def digitsVal (l : List Char) : Nat :=
  l.foldl (fun acc c => acc * 10 + (c.toNat - 48)) 0

/-- Model of Rust's `str::parse::<usize>()`: an optional `+` sign followed by
one or more ASCII digits, rejecting anything else and values above
`usize::MAX`. -/
def rustParseUsize (s : String) : Option Nat :=
  let l := match s.data with
    | '+' :: rest => rest
    | l => l
  if l = [] then none
  else if l.all isDigitC then
    if digitsVal l ≤ usizeMax then some (digitsVal l) else none
  else none

/-- Model of the `--workers` handling in main.rs:
`args.next().and_then(|n| n.parse().ok()).unwrap_or_else(default)`, where
`default` is `available_parallelism().map(|n| n.get()).unwrap_or(1)`
(a host-dependent positive value, taken here as a parameter). -/
def parseWorkersValue (tok : Option String) (defaultWorkers : Nat) : Nat :=
  match tok with
  | none => defaultWorkers
  | some s =>
    match rustParseUsize s with
    | some n => n
    | none => defaultWorkers

/-- Execution state of one worker thread. -/
inductive WStatus
  | idle
  | working (url : String)
  | finished
deriving DecidableEq, Repr

/-- Program position of the main thread. -/
inductive MPhase
  | dispatching
  | joining
  | collecting
  | writing
deriving DecidableEq, Repr

/-- Global state of the dispatch/collect pipeline of `main`: the URLs still
to be sent, the URL channel's buffered contents and closed flag, the worker
states, the buffered result channel, the `all_results` vector, and the main
thread's position. Records in the result channel are identified by their
URL, which is all the collection claims depend on. -/
structure Sys where
  toSend : List String
  urlQ : List String
  urlClosed : Bool
  ws : List WStatus
  resQ : List String
  collected : List String
  phase : MPhase
deriving Repr

/-- URLs currently being processed by some worker. -/
def workingUrls (ws : List WStatus) : List String :=
  ws.filterMap fun w =>
    match w with
    | .working u => some u
    | _ => none

/-- Number of live `Sender` handles of the result channel: each running
worker holds a clone, and the main thread keeps the original alive for the
whole `main` body (it is never dropped before the collection loop). -/
def liveResultSenders (ws : List WStatus) : Nat :=
  1 + (ws.filter fun w => decide (w ≠ WStatus.finished)).length

/-- Interleaved small-step semantics of `main` and the worker threads.
`mpsc` channels lose nothing and deliver each item once; a blocking `recv`
returns an item while the channel is nonempty, and returns `Err` (ending
the receiver's loop) only when the channel is empty and no sender is live. -/
inductive Step : Sys → Sys → Prop
  | sendUrl (u : String) (rest q : List String) (ws : List WStatus) (r c : List String) :
      Step ⟨u :: rest, q, false, ws, r, c, .dispatching⟩
        ⟨rest, q ++ [u], false, ws, r, c, .dispatching⟩
  | closeQ (q : List String) (ws : List WStatus) (r c : List String) :
      Step ⟨[], q, false, ws, r, c, .dispatching⟩
        ⟨[], q, true, ws, r, c, .joining⟩
  | dequeue (t : List String) (u : String) (q : List String) (cl : Bool)
      (l₁ l₂ : List WStatus) (r c : List String) (ph : MPhase) :
      Step ⟨t, u :: q, cl, l₁ ++ .idle :: l₂, r, c, ph⟩
        ⟨t, q, cl, l₁ ++ .working u :: l₂, r, c, ph⟩
  | finishUrl (t q : List String) (cl : Bool) (u : String)
      (l₁ l₂ : List WStatus) (r c : List String) (ph : MPhase) :
      Step ⟨t, q, cl, l₁ ++ .working u :: l₂, r, c, ph⟩
        ⟨t, q, cl, l₁ ++ .idle :: l₂, r ++ [u], c, ph⟩
  | wExit (t : List String) (l₁ l₂ : List WStatus) (r c : List String) (ph : MPhase) :
      Step ⟨t, [], true, l₁ ++ .idle :: l₂, r, c, ph⟩
        ⟨t, [], true, l₁ ++ .finished :: l₂, r, c, ph⟩
  | joinAll (t q : List String) (cl : Bool) (ws : List WStatus) (r c : List String) :
      (∀ x ∈ ws, x = WStatus.finished) →
      Step ⟨t, q, cl, ws, r, c, .joining⟩ ⟨t, q, cl, ws, r, c, .collecting⟩
  | collect (t q : List String) (cl : Bool) (ws : List WStatus) (u : String) (r c : List String) :
      Step ⟨t, q, cl, ws, u :: r, c, .collecting⟩
        ⟨t, q, cl, ws, r, c ++ [u], .collecting⟩
  | collectDone (t q : List String) (cl : Bool) (ws : List WStatus) (c : List String) :
      liveResultSenders ws = 0 →
      Step ⟨t, q, cl, ws, [], c, .collecting⟩ ⟨t, q, cl, ws, [], c, .writing⟩

/-- Reachability in zero or more steps. -/
def Reaches (a b : Sys) : Prop := Relation.ReflTransGen Step a b

/-- Initial state of a run: `urls` to dispatch, `w` idle workers, empty
channels, main about to send. -/
def initSys (urls : List String) (w : Nat) : Sys :=
  ⟨urls, [], false, List.replicate w .idle, [], [], .dispatching⟩

/-- Invariant of the pipeline: phase bookkeeping, queue closure facts, the
fixed worker count, and conservation of URL occurrences across the five
places a URL can sit. -/
structure SysInv (urls : List String) (w : Nat) (s : Sys) : Prop where
  closed_iff : s.urlClosed = true ↔ s.phase ≠ .dispatching
  sent_done : s.phase ≠ .dispatching → s.toSend = []
  fin_q : WStatus.finished ∈ s.ws → s.urlClosed = true ∧ s.urlQ = []
  ws_len : s.ws.length = w
  not_writing : s.phase ≠ .writing
  conserve : ∀ x : String,
    s.toSend.count x + s.urlQ.count x + (workingUrls s.ws).count x +
      s.resQ.count x + s.collected.count x = urls.count x

/-- Attempt oracle where every attempt fails after 42 time units. -/
def c3Attempts : Nat → Attempt := fun _ => ⟨.error "connection refused", 42⟩

/-- Error message sequence used to exercise the all-fail claim. -/
def demoFailMsg : Nat → String :=
  fun i => if i = 2 then "dns failure" else "connection refused"

/-- Attempt oracle failing on every attempt with `demoFailMsg`. -/
def demoFailAttempts : Nat → Attempt := fun i => ⟨.error (demoFailMsg i), 5⟩

/-- Attempt oracle succeeding immediately. -/
def demoOkAttempts : Nat → Attempt := fun _ => ⟨.ok 200, 7⟩

/-- Attempt oracle failing once, then succeeding. -/
def demoRetryAttempts : Nat → Attempt :=
  fun i => if i = 0 then ⟨.error "connection refused", 3⟩ else ⟨.ok 301, 9⟩

/-- Final pipeline state of the two-URL, one-worker demonstration run. -/
def demoFinal : Sys :=
  ⟨[], [], true, [.finished], [], ["http://a", "http://a"], .collecting⟩

/-- Safe demonstration records for the amended serialization claim. -/
def demoRecs : List WebsiteStatus :=
  [⟨"http://x", .ok 200, 42, 1700000000⟩,
   ⟨"http://y/\"q\"", .error "timed out: \"maybe\"", 0, 1700000001⟩]


/-- One unrolling of the retry loop when the current attempt succeeds. -/
theorem retryFrom_step_ok (attempts : Nat → Attempt) (r i : Nat) (le : Option String)
    (rt code : Nat) (h : (attempts i).result = .ok code) :
    retryFrom attempts (r + 1) i le rt = ⟨le, (attempts i).elapsed, some code, i + 1⟩ := by
  have hdef : retryFrom attempts (r + 1) i le rt =
      match (attempts i).result with
      | .ok code => ⟨le, (attempts i).elapsed, some code, i + 1⟩
      | .error e => retryFrom attempts r (i + 1) (some e) rt := rfl
  rw [hdef, h]

/-- One unrolling of the retry loop when the current attempt fails. -/
theorem retryFrom_step_err (attempts : Nat → Attempt) (r i : Nat) (le : Option String)
    (rt : Nat) (e : String) (h : (attempts i).result = .error e) :
    retryFrom attempts (r + 1) i le rt = retryFrom attempts r (i + 1) (some e) rt := by
  have hdef : retryFrom attempts (r + 1) i le rt =
      match (attempts i).result with
      | .ok code => ⟨le, (attempts i).elapsed, some code, i + 1⟩
      | .error e => retryFrom attempts r (i + 1) (some e) rt := rfl
  rw [hdef, h]

/-- Unrolled retry loop: if every attempt in the window fails, the loop
exhausts its budget, keeps the incoming response time, ends with no status
code, and stores the message of the last attempt. -/
theorem retryFrom_allFail (attempts : Nat → Attempt) (m : Nat → String) :
    ∀ (r i : Nat) (le : Option String) (rt : Nat),
      (∀ j, i ≤ j → j ≤ i + r → (attempts j).result = .error (m j)) →
      retryFrom attempts (r + 1) i le rt = ⟨some (m (i + r)), rt, none, i + r + 1⟩ := by
  intro r
  induction r with
  | zero =>
    intro i le rt h
    have hi := h i (Nat.le_refl i) (Nat.le_add_right i 0)
    rw [retryFrom_step_err attempts 0 i le rt (m i) hi]
    simp [retryFrom]
  | succ r ih =>
    intro i le rt h
    have hi := h i (Nat.le_refl i) (by omega)
    rw [retryFrom_step_err attempts (r + 1) i le rt (m i) hi,
      ih (i + 1) (some (m i)) rt (fun j h₁ h₂ => h j (by omega) (by omega))]
    have h1 : i + 1 + r = i + (r + 1) := by omega
    rw [h1]

/-- Unrolled retry loop: if attempt `j` is the first success in the window,
the loop breaks there with attempt `j`'s code and elapsed time, having made
`j + 1` attempts. -/
theorem retryFrom_firstSuccess (attempts : Nat → Attempt) (j c : Nat) :
    ∀ (r i : Nat) (le : Option String) (rt : Nat),
      i ≤ j → j < i + r →
      (∀ k, i ≤ k → k < j → ∃ e, (attempts k).result = .error e) →
      (attempts j).result = .ok c →
      (retryFrom attempts r i le rt).status_code = some c ∧
        (retryFrom attempts r i le rt).response_time = (attempts j).elapsed ∧
        (retryFrom attempts r i le rt).attemptsMade = j + 1 := by
  intro r
  induction r with
  | zero =>
    intro i le rt h₁ h₂ _ _
    omega
  | succ r ih =>
    intro i le rt h₁ h₂ hfail hok
    rcases Nat.eq_or_lt_of_le h₁ with heq | hlt
    · subst heq
      rw [retryFrom_step_ok attempts r i le rt c hok]
      exact ⟨rfl, rfl, rfl⟩
    · obtain ⟨e, he⟩ := hfail i (Nat.le_refl i) hlt
      rw [retryFrom_step_err attempts r i le rt e he]
      exact ih (i + 1) (some e) rt hlt (by omega)
        (fun k hk₁ hk₂ => hfail k (by omega) hk₂) hok

/-- Unrolled retry loop: without any success, the response time variable
keeps its incoming value (it is only assigned on success). -/
theorem retryFrom_noSuccess_rt (attempts : Nat → Attempt) :
    ∀ (r i : Nat) (le : Option String) (rt : Nat),
      (∀ k, i ≤ k → k < i + r → ∀ c, (attempts k).result ≠ .ok c) →
      (retryFrom attempts r i le rt).response_time = rt := by
  intro r
  induction r with
  | zero => intro i le rt _; rfl
  | succ r ih =>
    intro i le rt h
    cases hres : (attempts i).result with
    | ok code => exact absurd hres (h i (Nat.le_refl i) (by omega) code)
    | error e =>
      rw [retryFrom_step_err attempts r i le rt e hres]
      exact ih (i + 1) (some e) rt (fun k hk₁ hk₂ => h k (by omega) (by omega))

/-- Unrolled retry loop: it never ends with both no status code and no
stored error, provided it makes at least one attempt or an error is
already stored. -/
theorem retryFrom_not_empty (attempts : Nat → Attempt) :
    ∀ (r i : Nat) (le : Option String) (rt : Nat),
      (0 < r ∨ le.isSome = true) →
      ((retryFrom attempts r i le rt).status_code).isSome = true ∨
        ((retryFrom attempts r i le rt).last_error).isSome = true := by
  intro r
  induction r with
  | zero =>
    intro i le rt h
    rcases h with h | h
    · omega
    · exact Or.inr h
  | succ r ih =>
    intro i le rt _
    cases hres : (attempts i).result with
    | ok code =>
      rw [retryFrom_step_ok attempts r i le rt code hres]
      exact Or.inl rfl
    | error e =>
      rw [retryFrom_step_err attempts r i le rt e hres]
      exact ih (i + 1) (some e) rt (Or.inr rfl)

/-- Claim C4: for a URL on which every GET attempt fails, with retry budget
`retries`, exactly `retries + 1` attempts are performed and the record is a
failure carrying the message of the last attempt (the code's
`response_time` stays at its zero default in this case). -/
theorem c4_all_fail (attempts : Nat → Attempt) (retries : Nat) (m : Nat → String)
    (url : String) (ts : Nat)
    (h : ∀ j, j ≤ retries → (attempts j).result = .error (m j)) :
    (runRetryLoop attempts retries).attemptsMade = retries + 1 ∧
      buildStatus url (runRetryLoop attempts retries) ts =
        some ⟨url, .error (m retries), 0, ts⟩ := by
  have hrun : runRetryLoop attempts retries = ⟨some (m retries), 0, none, retries + 1⟩ := by
    have h0 := retryFrom_allFail attempts m retries 0 none 0
      (fun j _ hj => h j (by omega))
    simpa [runRetryLoop] using h0
  rw [hrun]
  exact ⟨rfl, rfl⟩

/-- Witness for C4: three failing attempts with retry budget 2 give three
attempts and the third attempt's message. -/
theorem c4_all_fail_witness :
    (runRetryLoop demoFailAttempts 2).attemptsMade = 3 ∧
      buildStatus "http://a" (runRetryLoop demoFailAttempts 2) 77 =
        some ⟨"http://a", .error (demoFailMsg 2), 0, 77⟩ :=
  c4_all_fail demoFailAttempts 2 demoFailMsg "http://a" 77 (fun _ _ => rfl)

/-- Claim C8: if the GET first succeeds at attempt index `j` (so on the
`j + 1`-st attempt, `j ≤ retries`), the loop stops immediately: exactly
`j + 1` attempts occur and the record is a success carrying that attempt's
status code and elapsed time. -/
theorem c8_success_stops (attempts : Nat → Attempt) (retries j c t : Nat)
    (url : String) (ts : Nat)
    (hj : j ≤ retries)
    (hfail : ∀ i, i < j → ∃ e, (attempts i).result = .error e)
    (hok : (attempts j).result = .ok c)
    (ht : (attempts j).elapsed = t) :
    (runRetryLoop attempts retries).attemptsMade = j + 1 ∧
      buildStatus url (runRetryLoop attempts retries) ts = some ⟨url, .ok c, t, ts⟩ := by
  obtain ⟨h₁, h₂, h₃⟩ := retryFrom_firstSuccess attempts j c (retries + 1) 0 none 0
    (Nat.zero_le j) (by omega) (fun k _ hk => hfail k hk) hok
  refine ⟨h₃, ?_⟩
  simp only [buildStatus, runRetryLoop, h₁, h₂, ht]

/-- Witness for C8: failure then success with budget 2 stops after two
attempts with the second attempt's code and time. -/
theorem c8_success_stops_witness :
    (runRetryLoop demoRetryAttempts 2).attemptsMade = 2 ∧
      buildStatus "http://b" (runRetryLoop demoRetryAttempts 2) 99 =
        some ⟨"http://b", .ok 301, 9, 99⟩ :=
  c8_success_stops demoRetryAttempts 2 1 301 9 "http://b" 99 (by omega)
    (fun i hi => ⟨"connection refused", by rw [Nat.lt_one_iff.mp hi]; rfl⟩) rfl rfl

/-- Claim C10: building the status record never panics: the retry loop
always makes at least one attempt, so whenever no attempt succeeded the
last error is present and `last_error.unwrap()` is safe. -/
theorem c10_no_panic (attempts : Nat → Attempt) (retries : Nat) (url : String) (ts : Nat) :
    (buildStatus url (runRetryLoop attempts retries) ts).isSome = true := by
  have h := retryFrom_not_empty attempts (retries + 1) 0 none 0 (Or.inl (Nat.succ_pos retries))
  simp only [runRetryLoop] at h ⊢
  unfold buildStatus
  rcases hsc : (retryFrom attempts (retries + 1) 0 none 0).status_code with _ | code
  · rcases hle : (retryFrom attempts (retries + 1) 0 none 0).last_error with _ | e
    · rw [hsc, hle] at h
      simp at h
    · simp
  · simp

/-- Counterexample to claim C3 as stated: with a single attempt that fails
after 42 time units, the record's response time is the zero default, not
the final attempt's duration. -/
theorem c3_counterexample :
    (c3Attempts 0).elapsed = 42 ∧
      (runRetryLoop c3Attempts 0).attemptsMade = 1 ∧
      (runRetryLoop c3Attempts 0).response_time = 0 ∧
      (runRetryLoop c3Attempts 0).response_time ≠ (c3Attempts 0).elapsed :=
  ⟨rfl, rfl, rfl, by decide⟩

/-- Claim C3 as amended: when some attempt succeeds, `response_time` is the
duration of that final (successful) attempt only; when every attempt fails,
`response_time` is the zero default, regardless of the attempts' durations. -/
theorem c3_response_time_amended (attempts : Nat → Attempt) (retries : Nat) :
    (∀ j c, j ≤ retries → (attempts j).result = .ok c →
        (∀ i, i < j → ∃ e, (attempts i).result = .error e) →
        (runRetryLoop attempts retries).response_time = (attempts j).elapsed)
    ∧ ((∀ i, i ≤ retries → ∀ c, (attempts i).result ≠ .ok c) →
        (runRetryLoop attempts retries).response_time = 0) := by
  constructor
  · intro j c hj hok hfail
    exact (retryFrom_firstSuccess attempts j c (retries + 1) 0 none 0
      (Nat.zero_le j) (by omega) (fun k _ hk => hfail k hk) hok).2.1
  · intro h
    exact retryFrom_noSuccess_rt attempts (retries + 1) 0 none 0
      (fun k _ hk c => h k (by omega) c)

/-- Witness for the amended C3: an immediate success reports that attempt's
elapsed time. -/
theorem c3_response_time_amended_witness :
    (runRetryLoop demoOkAttempts 3).response_time = (demoOkAttempts 0).elapsed :=
  (c3_response_time_amended demoOkAttempts 3).1 0 200 (Nat.zero_le 3) rfl
    (fun i hi => absurd hi (Nat.not_lt_zero i))

/-- Counterexample to claim C9 as stated: the string `"0"` is not a positive
integer, yet the code accepts it without falling back to the default (8
here), configuring zero workers. -/
theorem c9_counterexample :
    rustParseUsize "0" = some 0 ∧ ¬ (0 < 0) ∧
      parseWorkersValue (some "0") 8 = 0 ∧ (0 : Nat) ≠ 8 :=
  ⟨by decide, by decide, by decide, by decide⟩

/-- Claim C9 as amended: the `--workers` value falls back to the default
exactly when the token is missing or fails to parse as a `usize`
(nonnegative, at most `usize::MAX`); any value that parses — including 0 —
is used as given. -/
theorem c9_fallback_amended :
    (∀ d : Nat, parseWorkersValue none d = d)
    ∧ (∀ s d, rustParseUsize s = none → parseWorkersValue (some s) d = d)
    ∧ (∀ s n d, rustParseUsize s = some n → parseWorkersValue (some s) d = n) :=
  ⟨fun _ => rfl,
   fun s d h => by simp only [parseWorkersValue, h],
   fun s n d h => by simp only [parseWorkersValue, h]⟩

/-- Witness for the amended C9: a non-numeric token falls back to the
default, a negative token falls back, and `"0"` is accepted as zero. -/
theorem c9_fallback_amended_witness :
    parseWorkersValue (some "abc") 8 = 8 ∧
      parseWorkersValue (some "-3") 8 = 8 ∧
      parseWorkersValue (some "0") 8 = 0 :=
  ⟨c9_fallback_amended.2.1 "abc" 8 (by decide),
   c9_fallback_amended.2.1 "-3" 8 (by decide),
   c9_fallback_amended.2.2 "0" 0 8 (by decide)⟩

/-- Counterexample to claim C5 as stated: the success record does not
serialize to the single-line string given in the claim (the code emits a
pretty-printed, multi-line object). -/
theorem c5_counterexample :
    toJsonString ⟨"http://x", .ok 200, 42, 1700000000⟩ ≠
      "\x7b\"url\": \"http://x\", \"status\": 200, \"response_time_ms\": 42, \"timestamp\": 1700000000\x7d" := by
  decide

/-- Claim C5 as amended: the success record serializes to exactly the
pretty-printed object below — newline after the opening brace, each field
on its own four-space-indented line, newline before the closing brace —
with the fields in the fixed order `url`, `status`, `response_time_ms`,
`timestamp`. -/
theorem c5_serialization_amended :
    toJsonString ⟨"http://x", .ok 200, 42, 1700000000⟩ =
      "\x7b\n    \"url\": \"http://x\",\n    \"status\": 200,\n    \"response_time_ms\": 42,\n    \"timestamp\": 1700000000\n\x7d" := by
  decide

/-- Counterexample to claim C6 as stated: a URL containing a raw newline
(a control character) and a URL ending in a backslash each make the
serialized report invalid JSON, because the code escapes only double
quotes. -/
theorem c6_counterexample :
    jsonValid (resultsJson [⟨"http:/\na", .ok 200, 1, 2⟩]) = false ∧
      jsonValid (resultsJson [⟨"http://x\\", .ok 200, 1, 2⟩]) = false := by
  refine ⟨by decide, by decide⟩

/-- Digit characters produced by `natDigitChar` are ASCII digits. -/
theorem natDigitChar_digit (n : Nat) (h : n < 10) : isDigitC (natDigitChar n) = true := by
  interval_cases n <;> decide

/-- Nonzero digits do not render as the zero character. -/
theorem natDigitChar_ne_zero (n : Nat) (h₁ : 1 ≤ n) (h₂ : n < 10) : natDigitChar n ≠ '0' := by
  interval_cases n <;> decide

/-- Every character of a rendered number is an ASCII digit. -/
theorem natReprAux_digits (f : Nat) : ∀ (n : Nat), ∀ c ∈ natReprAux f n, isDigitC c = true := by
  induction f with
  | zero => intro n c hc; simp [natReprAux] at hc
  | succ f ih =>
    intro n c hc
    by_cases h : n < 10
    · simp only [natReprAux, if_pos h, List.mem_singleton] at hc
      rw [hc]
      exact natDigitChar_digit n h
    · simp only [natReprAux, if_neg h, List.mem_append, List.mem_singleton] at hc
      rcases hc with hc | hc
      · exact ih (n / 10) c hc
      · rw [hc]
        exact natDigitChar_digit (n % 10) (Nat.mod_lt n (by omega))

/-- With enough fuel, a positive number renders as a nonzero leading digit
followed by more characters. -/
theorem natReprAux_head_pos (f : Nat) : ∀ (n : Nat), 1 ≤ n → n < 10 ^ f →
    ∃ d rest, natReprAux f n = d :: rest ∧ isDigitC d = true ∧ d ≠ '0' := by
  induction f with
  | zero =>
    intro n h₁ h₂
    simp at h₂
    omega
  | succ f ih =>
    intro n h₁ h₂
    by_cases h : n < 10
    · exact ⟨natDigitChar n, [], by simp [natReprAux, if_pos h],
        natDigitChar_digit n h, natDigitChar_ne_zero n h₁ h⟩
    · have hdiv : n / 10 < 10 ^ f := by
        rw [Nat.div_lt_iff_lt_mul (by omega)]
        rw [pow_succ] at h₂
        omega
      obtain ⟨d, rest, he, hd, hz⟩ := ih (n / 10) (by omega) hdiv
      exact ⟨d, rest ++ [natDigitChar (n % 10)], by simp [natReprAux, if_neg h, he], hd, hz⟩

/-- Rendering of zero. -/
theorem natRepr_zero : natRepr 0 = ['0'] := by decide

/-- A positive number renders as a nonzero digit followed by digits. -/
theorem natRepr_pos (n : Nat) (h : 1 ≤ n) :
    ∃ d rest, natRepr n = d :: rest ∧ isDigitC d = true ∧ d ≠ '0' ∧
      ∀ c ∈ rest, isDigitC c = true := by
  have hlt : n < 10 ^ (n + 1) :=
    Nat.lt_of_lt_of_le (Nat.lt_pow_self (by omega) n)
      (Nat.pow_le_pow_right (by omega) (Nat.le_succ n))
  obtain ⟨d, rest, he, hd, hz⟩ := natReprAux_head_pos (n + 1) n h hlt
  refine ⟨d, rest, he, hd, hz, fun c hc => ?_⟩
  exact natReprAux_digits (n + 1) n c (by rw [he]; exact List.mem_cons_of_mem d hc)

/-- ASCII digits are not JSON whitespace. -/
theorem digit_not_ws (c : Char) (h : isDigitC c = true) : isJsonWs c = false := by
  by_cases h1 : c = ' '
  · rw [h1] at h; exact absurd h (by decide)
  by_cases h2 : c = '\n'
  · rw [h2] at h; exact absurd h (by decide)
  by_cases h3 : c = '\t'
  · rw [h3] at h; exact absurd h (by decide)
  by_cases h4 : c = '\r'
  · rw [h4] at h; exact absurd h (by decide)
  simp [isJsonWs, h1, h2, h3, h4]

/-- A nonzero ASCII digit starts a number in the `intDone` sub-state. -/
theorem digit_startValue (stk : List JCtx) (d : Char)
    (hd : isDigitC d = true) (hz : d ≠ '0') :
    startValue stk d = .num .intDone stk := by
  have h1 : d ≠ '"' := by intro h; rw [h] at hd; exact absurd hd (by decide)
  have h2 : d ≠ '\x7b' := by intro h; rw [h] at hd; exact absurd hd (by decide)
  have h3 : d ≠ '[' := by intro h; rw [h] at hd; exact absurd hd (by decide)
  have h4 : d ≠ 't' := by intro h; rw [h] at hd; exact absurd hd (by decide)
  have h5 : d ≠ 'f' := by intro h; rw [h] at hd; exact absurd hd (by decide)
  have h6 : d ≠ 'n' := by intro h; rw [h] at hd; exact absurd hd (by decide)
  have h7 : d ≠ '-' := by intro h; rw [h] at hd; exact absurd hd (by decide)
  simp [startValue, h1, h2, h3, h4, h5, h6, h7, hz, hd]

/-- Running the validator over the chunk up to the url value's opening
quote, from a value position. -/
theorem run_partA (stk : List JCtx) :
    List.foldl jsonStep (.value stk) jsonPartA = .inStr .asValue .normal (.obj :: stk) := rfl

/-- Running the validator over the same chunk from an array-start position. -/
theorem run_partA_arr (stk : List JCtx) :
    List.foldl jsonStep (.arrStart stk) jsonPartA =
      .inStr .asValue .normal (.obj :: .arr :: stk) := rfl

/-- Running the validator from the end of the url value to the start of the
status value. -/
theorem run_partB (stk : List JCtx) :
    List.foldl jsonStep (.inStr .asValue .normal (.obj :: stk)) jsonPartB =
      .value (.obj :: stk) := rfl

/-- Running the validator from a complete status number to the start of the
response-time value. -/
theorem run_partC_num (stk : List JCtx) (sub : NumSub) (h : numComplete sub = true) :
    List.foldl jsonStep (.num sub (.obj :: stk)) jsonPartC = .value (.obj :: stk) := by
  cases sub <;> first | rfl | exact absurd h (by decide)

/-- Running the validator from a complete status string to the start of the
response-time value. -/
theorem run_partC_after (stk : List JCtx) :
    List.foldl jsonStep (.afterValue (.obj :: stk)) jsonPartC = .value (.obj :: stk) := rfl

/-- Running the validator from a complete response-time number to the start
of the timestamp value. -/
theorem run_partD_num (stk : List JCtx) (sub : NumSub) (h : numComplete sub = true) :
    List.foldl jsonStep (.num sub (.obj :: stk)) jsonPartD = .value (.obj :: stk) := by
  cases sub <;> first | rfl | exact absurd h (by decide)

/-- Running the validator from a complete timestamp number over the closing
brace line pops the object. -/
theorem run_partE_num (stk : List JCtx) (sub : NumSub) (h : numComplete sub = true) :
    List.foldl jsonStep (.num sub (.obj :: stk)) jsonPartE = .afterValue stk := by
  cases sub <;> first | rfl | exact absurd h (by decide)

/-- Quote-escaped safe text keeps the validator inside the string literal. -/
theorem run_escQuote (l : List Char) (role : StrRole) (stk : List JCtx)
    (h : ∀ c ∈ l, jsonSafeChar c = true) :
    List.foldl jsonStep (.inStr role .normal stk) (escQuote l) =
      .inStr role .normal stk := by
  induction l with
  | nil => rfl
  | cons c l ih =>
    have hc := h c (List.mem_cons_self c l)
    have hl : ∀ d ∈ l, jsonSafeChar d = true := fun d hd => h d (List.mem_cons_of_mem c hd)
    have hsplit : escQuote (c :: l) =
        (if c = '"' then ['\\', '"'] else [c]) ++ escQuote l := by
      simp [escQuote]
    rw [hsplit, List.foldl_append]
    by_cases hq : c = '"'
    · rw [if_pos hq]
      exact ih hl
    · rw [if_neg hq]
      have hsafe : c ≠ '\\' ∧ 32 ≤ c.toNat := by simpa [jsonSafeChar] using hc
      have hstep : jsonStep (.inStr role .normal stk) c = .inStr role .normal stk := by
        simp [jsonStep, strStep, hq, hsafe.1, Nat.not_lt.mpr hsafe.2]
      simp only [List.foldl_cons, List.foldl_nil, hstep]
      exact ih hl

/-- Digits extend a number literal in the `intDone` sub-state. -/
theorem run_digits (l : List Char) (stk : List JCtx)
    (h : ∀ c ∈ l, isDigitC c = true) :
    List.foldl jsonStep (.num .intDone stk) l = .num .intDone stk := by
  induction l with
  | nil => rfl
  | cons c l ih =>
    have hc := h c (List.mem_cons_self c l)
    have hstep : jsonStep (.num .intDone stk) c = .num .intDone stk := by
      simp [jsonStep, numStep, hc]
    simp only [List.foldl_cons, hstep]
    exact ih (fun d hd => h d (List.mem_cons_of_mem c hd))

/-- A rendered number read from a value position ends in a complete number
sub-state. -/
theorem run_natRepr (n : Nat) (stk : List JCtx) :
    List.foldl jsonStep (.value stk) (natRepr n) =
      .num (if n = 0 then NumSub.zeroDone else NumSub.intDone) stk := by
  by_cases h : n = 0
  · rw [h, if_pos rfl, natRepr_zero]
    rfl
  · rw [if_neg h]
    obtain ⟨d, rest, he, hd, hz, hrest⟩ := natRepr_pos n (by omega)
    rw [he]
    have hstep : jsonStep (.value stk) d = .num .intDone stk := by
      simp [jsonStep, digit_not_ws d hd, digit_startValue stk d hd hz]
    simp only [List.foldl_cons, hstep]
    exact run_digits rest stk hrest

/-- Completeness of the number sub-state a rendered integer ends in. -/
theorem natRepr_numComplete (n : Nat) :
    numComplete (if n = 0 then NumSub.zeroDone else NumSub.intDone) = true := by
  by_cases h : n = 0 <;> simp [h, numComplete]

/-- Running the validator over everything of a safe record's object after
the url value's opening quote completes the object. -/
theorem run_objTail (w : WebsiteStatus) (stk : List JCtx) (h : recSafe w = true) :
    List.foldl jsonStep (.inStr .asValue .normal (.obj :: stk)) (objTail w) =
      .afterValue stk := by
  cases hst : w.action_status with
  | error e =>
    have hh : (∀ c ∈ w.url.data, jsonSafeChar c = true) ∧
        (∀ c ∈ e.data, jsonSafeChar c = true) := by
      simp only [recSafe, hst, Bool.and_eq_true, List.all_eq_true] at h
      exact h
    simp only [objTail, hst, statusChars, List.foldl_append]
    rw [run_escQuote w.url.data .asValue (.obj :: stk) hh.1, run_partB]
    have h1 : List.foldl jsonStep (.value (.obj :: stk)) ('"' :: (escQuote e.data ++ ['"'])) =
        .afterValue (.obj :: stk) := by
      simp only [List.foldl_cons, List.foldl_append]
      have hq : jsonStep (.value (.obj :: stk)) '"' = .inStr .asValue .normal (.obj :: stk) := rfl
      rw [hq, run_escQuote e.data .asValue (.obj :: stk) hh.2]
      rfl
    rw [h1, run_partC_after, run_natRepr, run_partD_num stk _ (natRepr_numComplete _),
      run_natRepr, run_partE_num stk _ (natRepr_numComplete _)]
  | ok code =>
    have hh : ∀ c ∈ w.url.data, jsonSafeChar c = true := by
      simp only [recSafe, hst, Bool.and_eq_true, List.all_eq_true] at h
      exact h.1
    simp only [objTail, hst, statusChars, List.foldl_append]
    rw [run_escQuote w.url.data .asValue (.obj :: stk) hh, run_partB,
      run_natRepr, run_partC_num stk _ (natRepr_numComplete _),
      run_natRepr, run_partD_num stk _ (natRepr_numComplete _),
      run_natRepr, run_partE_num stk _ (natRepr_numComplete _)]

/-- Running the validator over a safe record's whole object from a value
position completes a value. -/
theorem run_obj (w : WebsiteStatus) (stk : List JCtx) (h : recSafe w = true) :
    List.foldl jsonStep (.value stk) (toJsonChars w) = .afterValue stk := by
  simp only [toJsonChars, List.foldl_append]
  rw [run_partA, run_objTail w stk h]

/-- Claim C7: a record whose URL contains a double quote serializes with
the quote escaped as a backslash-quote pair, and the serialized record is
valid JSON. -/
theorem c7_quote_escaped :
    escQuote ("http://x/\"y".data) = ("http://x/\\\"y".data) ∧
      toJsonString ⟨"http://x/\"y", .ok 200, 42, 1700000000⟩ =
        "\x7b\n    \"url\": \"http://x/\\\"y\",\n    \"status\": 200,\n    \"response_time_ms\": 42,\n    \"timestamp\": 1700000000\n\x7d" ∧
      ∀ (code ms ts : Nat),
        jsonValid (toJsonString ⟨"http://x/\"y", .ok code, ms, ts⟩) = true := by
  refine ⟨by decide, by decide, fun code ms ts => ?_⟩
  show jsonAccept (List.foldl jsonStep (.value [])
    (toJsonChars ⟨"http://x/\"y", .ok code, ms, ts⟩)) = true
  rw [run_obj ⟨"http://x/\"y", .ok code, ms, ts⟩ [] rfl]
  rfl

/-- The separator between serialized records moves the validator from a
finished array element to the next value position. -/
theorem run_sep (stk : List JCtx) :
    List.foldl jsonStep (.afterValue (.arr :: stk)) jsonSep = .value (.arr :: stk) := rfl

/-- The closing bracket line after the last element pops the array. -/
theorem run_closeArr (stk : List JCtx) :
    List.foldl jsonStep (.afterValue (.arr :: stk)) ('\n' :: [']']) = .afterValue stk := rfl

/-- Running the validator over the joined safe records and the closing
bracket, from a value position inside the array. -/
theorem run_elems (stk : List JCtx) :
    ∀ (rest : List WebsiteStatus) (r : WebsiteStatus),
      recSafe r = true → (∀ x ∈ rest, recSafe x = true) →
      List.foldl jsonStep (.value (.arr :: stk))
          (joinSep jsonSep ((r :: rest).map toJsonChars) ++ ('\n' :: [']'])) =
        .afterValue stk := by
  intro rest
  induction rest with
  | nil =>
    intro r h _
    simp only [List.map, joinSep]
    rw [List.foldl_append, run_obj r (.arr :: stk) h, run_closeArr]
  | cons r₂ rest₂ ih =>
    intro r h hall
    simp only [List.map, joinSep]
    rw [List.append_assoc, List.append_assoc, List.foldl_append,
      run_obj r (.arr :: stk) h, List.foldl_append, run_sep]
    have hgoal := ih r₂ (hall r₂ (List.mem_cons_self r₂ rest₂))
      (fun x hx => hall x (List.mem_cons_of_mem r₂ hx))
    simp only [List.map, List.foldl_append] at hgoal ⊢
    exact hgoal

/-- On the opening brace of a serialized record, the array-start state and
the value state inside the array agree, so whole runs agree. -/
theorem foldl_arrStart_eq_value (stk : List JCtx) (w : WebsiteStatus) (z : List Char) :
    List.foldl jsonStep (.arrStart stk) (toJsonChars w ++ z) =
      List.foldl jsonStep (.value (.arr :: stk)) (toJsonChars w ++ z) := by
  have hshape : toJsonChars w ++ z =
      '\x7b' :: (('\n' :: "    \"url\": \"".data) ++ (objTail w ++ z)) := by
    simp [toJsonChars, jsonPartA]
  rw [hshape]
  rfl

/-- State-switch lemma for the first serialized record of a nonempty join. -/
theorem foldl_arrStart_join (stk : List JCtx) (r : WebsiteStatus)
    (rest : List WebsiteStatus) (z : List Char) :
    List.foldl jsonStep (.arrStart stk)
        (joinSep jsonSep ((r :: rest).map toJsonChars) ++ z) =
      List.foldl jsonStep (.value (.arr :: stk))
        (joinSep jsonSep ((r :: rest).map toJsonChars) ++ z) := by
  cases rest with
  | nil =>
    simp only [List.map, joinSep]
    exact foldl_arrStart_eq_value stk r z
  | cons r₂ rest₂ =>
    simp only [List.map, joinSep]
    rw [List.append_assoc, List.append_assoc]
    exact foldl_arrStart_eq_value stk r _

/-- Claim C6 as amended: for every collection of records whose url and
error-message strings contain no backslash and no control character below
code point 32 (double quotes are fine, being escaped), the serialized
report is a valid RFC 8259 JSON array. -/
theorem c6_valid_json_amended (rs : List WebsiteStatus)
    (h : ∀ r ∈ rs, recSafe r = true) :
    jsonValid (resultsJson rs) = true := by
  cases rs with
  | nil => decide
  | cons r rest =>
    show jsonAccept (List.foldl jsonStep (.value []) (resultsChars (r :: rest))) = true
    have hr := h r (List.mem_cons_self r rest)
    have hrest : ∀ x ∈ rest, recSafe x = true :=
      fun x hx => h x (List.mem_cons_of_mem r hx)
    simp only [resultsChars, List.foldl_cons]
    have h2 : jsonStep (jsonStep (.value []) '[') '\n' = .arrStart [] := rfl
    rw [h2, foldl_arrStart_join [] r rest ('\n' :: [']']),
      run_elems [] rest r hr hrest]
    rfl

/-- Witness for the amended C6: two safe records (one success, one failure
with quotes in both strings) serialize to valid JSON. -/
theorem c6_valid_json_amended_witness :
    (∀ r ∈ demoRecs, recSafe r = true) ∧ jsonValid (resultsJson demoRecs) = true :=
  ⟨by decide, c6_valid_json_amended demoRecs (by decide)⟩

/-- Fresh idle workers carry no in-flight URLs. -/
theorem workingUrls_replicate (w : Nat) : workingUrls (List.replicate w .idle) = [] := by
  induction w with
  | zero => rfl
  | succ w ih =>
    simp only [List.replicate_succ, workingUrls, List.filterMap_cons]
    exact ih

/-- Fully finished worker pools carry no in-flight URLs. -/
theorem workingUrls_all_finished (l : List WStatus)
    (h : ∀ x ∈ l, x = WStatus.finished) : workingUrls l = [] := by
  induction l with
  | nil => rfl
  | cons x l ih =>
    have hx := h x (List.mem_cons_self x l)
    rw [hx] at *
    simpa [workingUrls, List.filterMap_cons] using
      ih (fun y hy => h y (List.mem_cons_of_mem x hy))

/-- The invariant holds initially. -/
theorem sysInv_init (urls : List String) (w : Nat) : SysInv urls w (initSys urls w) := by
  refine ⟨?_, ?_, ?_, ?_, ?_, ?_⟩
  · simp [initSys]
  · intro h; exact absurd rfl h
  · intro hf
    have := List.eq_of_mem_replicate hf
    exact absurd this (by decide)
  · simp [initSys]
  · simp [initSys]
  · intro x
    simp [initSys, workingUrls_replicate]

/-- The invariant is preserved by every step of the pipeline. -/
theorem sysInv_step (urls : List String) (w : Nat) (s s' : Sys)
    (hstep : Step s s') (hinv : SysInv urls w s) : SysInv urls w s' := by
  cases hstep with
  | sendUrl u rest q ws r c =>
    refine ⟨by simp, fun h => absurd rfl h, ?_, hinv.ws_len, by simp, ?_⟩
    · intro hf
      have := (hinv.fin_q hf).1
      simp at this
    · intro x
      have hc := hinv.conserve x
      simp only [List.count_append, List.count_cons, List.count_nil] at hc ⊢
      omega
  | closeQ q ws r c =>
    refine ⟨by simp, fun _ => rfl, ?_, hinv.ws_len, by simp, hinv.conserve⟩
    intro hf
    have := (hinv.fin_q hf).1
    simp at this
  | dequeue t u q cl l₁ l₂ r c ph =>
    have hmem : WStatus.finished ∈ l₁ ++ WStatus.working u :: l₂ →
        WStatus.finished ∈ l₁ ++ WStatus.idle :: l₂ := by
      intro hf
      simp only [List.mem_append, List.mem_cons] at hf ⊢
      rcases hf with hf | hf | hf
      · exact Or.inl hf
      · exact absurd hf (by simp)
      · exact Or.inr (Or.inr hf)
    refine ⟨hinv.closed_iff, hinv.sent_done, ?_, ?_, hinv.not_writing, ?_⟩
    · intro hf
      have := (hinv.fin_q (hmem hf)).2
      simp at this
    · have := hinv.ws_len
      simpa using this
    · intro x
      have hc := hinv.conserve x
      simp only [workingUrls, List.filterMap_append, List.filterMap_cons,
        List.count_append, List.count_cons, List.count_nil] at hc ⊢
      omega
  | finishUrl t q cl u l₁ l₂ r c ph =>
    have hmem : WStatus.finished ∈ l₁ ++ WStatus.idle :: l₂ →
        WStatus.finished ∈ l₁ ++ WStatus.working u :: l₂ := by
      intro hf
      simp only [List.mem_append, List.mem_cons] at hf ⊢
      rcases hf with hf | hf | hf
      · exact Or.inl hf
      · exact absurd hf (by simp)
      · exact Or.inr (Or.inr hf)
    refine ⟨hinv.closed_iff, hinv.sent_done, ?_, ?_, hinv.not_writing, ?_⟩
    · intro hf
      exact hinv.fin_q (hmem hf)
    · have := hinv.ws_len
      simpa using this
    · intro x
      have hc := hinv.conserve x
      simp only [workingUrls, List.filterMap_append, List.filterMap_cons,
        List.count_append, List.count_cons, List.count_nil] at hc ⊢
      omega
  | wExit t l₁ l₂ r c ph =>
    refine ⟨hinv.closed_iff, hinv.sent_done, fun _ => ⟨rfl, rfl⟩, ?_, hinv.not_writing, ?_⟩
    · have := hinv.ws_len
      simpa using this
    · intro x
      have hc := hinv.conserve x
      simp only [workingUrls, List.filterMap_append, List.filterMap_cons,
        List.count_append, List.count_cons, List.count_nil] at hc ⊢
      omega
  | joinAll t q cl ws r c hall =>
    have hcl : cl = true := hinv.closed_iff.mpr (by simp)
    refine ⟨by simp [hcl], fun _ => hinv.sent_done (by simp), hinv.fin_q,
      hinv.ws_len, by simp, hinv.conserve⟩
  | collect t q cl ws u r c =>
    refine ⟨hinv.closed_iff, hinv.sent_done, hinv.fin_q, hinv.ws_len, by simp, ?_⟩
    intro x
    have hc := hinv.conserve x
    simp only [List.count_append, List.count_cons, List.count_nil] at hc ⊢
    omega
  | collectDone t q cl ws c hg =>
    exfalso
    unfold liveResultSenders at hg
    omega

/-- Every reachable state satisfies the invariant. -/
theorem sysInv_reach (urls : List String) (w : Nat) (s : Sys)
    (h : Reaches (initSys urls w) s) : SysInv urls w s := by
  induction h with
  | refl => exact sysInv_init urls w
  | tail _ hbc ih => exact sysInv_step urls w _ _ hbc ih

/-- Claim C1: for any list of submitted URLs (duplicates allowed) and any
positive worker count, once the workers are all joined and the result
channel drained, the collected records are exactly one per submitted URL —
no loss, no duplication. -/
theorem c1_collection_complete (urls : List String) (w : Nat) (s : Sys)
    (hw : 1 ≤ w)
    (hr : Reaches (initSys urls w) s)
    (hph : s.phase = .collecting)
    (hws : ∀ x ∈ s.ws, x = WStatus.finished)
    (hq : s.resQ = []) :
    s.collected.length = urls.length ∧ s.collected.Perm urls := by
  have hinv := sysInv_reach urls w s hr
  have hlen : s.ws.length = w := hinv.ws_len
  have hne : s.ws ≠ [] := by
    intro h0
    rw [h0] at hlen
    simp at hlen
    omega
  obtain ⟨x, hx⟩ := List.exists_mem_of_ne_nil s.ws hne
  have hfin : WStatus.finished ∈ s.ws := by
    rw [← hws x hx]
    exact hx
  have hqnil := (hinv.fin_q hfin).2
  have hts : s.toSend = [] := hinv.sent_done (by rw [hph]; simp)
  have hwork : workingUrls s.ws = [] := workingUrls_all_finished s.ws hws
  have hperm : s.collected.Perm urls := by
    rw [List.perm_iff_count]
    intro a
    have hc := hinv.conserve a
    rw [hts, hqnil, hwork, hq] at hc
    simpa using hc
  exact ⟨hperm.length_eq, hperm⟩

/-- Witness for C1: a complete run of one worker over the duplicate URL
list reaches the drained state with both records collected. -/
theorem c1_collection_complete_witness :
    Reaches (initSys ["http://a", "http://a"] 1) demoFinal ∧
      demoFinal.collected.length = 2 ∧
      demoFinal.collected.Perm ["http://a", "http://a"] := by
  have t1 : Step ⟨["http://a", "http://a"], [], false, [.idle], [], [], .dispatching⟩
      ⟨["http://a"], ["http://a"], false, [.idle], [], [], .dispatching⟩ :=
    Step.sendUrl "http://a" ["http://a"] [] [.idle] [] []
  have t2 : Step ⟨["http://a"], ["http://a"], false, [.idle], [], [], .dispatching⟩
      ⟨[], ["http://a", "http://a"], false, [.idle], [], [], .dispatching⟩ :=
    Step.sendUrl "http://a" [] ["http://a"] [.idle] [] []
  have t3 : Step ⟨[], ["http://a", "http://a"], false, [.idle], [], [], .dispatching⟩
      ⟨[], ["http://a", "http://a"], true, [.idle], [], [], .joining⟩ :=
    Step.closeQ ["http://a", "http://a"] [.idle] [] []
  have t4 : Step ⟨[], ["http://a", "http://a"], true, [.idle], [], [], .joining⟩
      ⟨[], ["http://a"], true, [.working "http://a"], [], [], .joining⟩ :=
    Step.dequeue [] "http://a" ["http://a"] true [] [] [] [] .joining
  have t5 : Step ⟨[], ["http://a"], true, [.working "http://a"], [], [], .joining⟩
      ⟨[], ["http://a"], true, [.idle], ["http://a"], [], .joining⟩ :=
    Step.finishUrl [] ["http://a"] true "http://a" [] [] [] [] .joining
  have t6 : Step ⟨[], ["http://a"], true, [.idle], ["http://a"], [], .joining⟩
      ⟨[], [], true, [.working "http://a"], ["http://a"], [], .joining⟩ :=
    Step.dequeue [] "http://a" [] true [] [] ["http://a"] [] .joining
  have t7 : Step ⟨[], [], true, [.working "http://a"], ["http://a"], [], .joining⟩
      ⟨[], [], true, [.idle], ["http://a", "http://a"], [], .joining⟩ :=
    Step.finishUrl [] [] true "http://a" [] [] ["http://a"] [] .joining
  have t8 : Step ⟨[], [], true, [.idle], ["http://a", "http://a"], [], .joining⟩
      ⟨[], [], true, [.finished], ["http://a", "http://a"], [], .joining⟩ :=
    Step.wExit [] [] [] ["http://a", "http://a"] [] .joining
  have t9 : Step ⟨[], [], true, [.finished], ["http://a", "http://a"], [], .joining⟩
      ⟨[], [], true, [.finished], ["http://a", "http://a"], [], .collecting⟩ :=
    Step.joinAll [] [] true [.finished] ["http://a", "http://a"] [] (by decide)
  have t10 : Step ⟨[], [], true, [.finished], ["http://a", "http://a"], [], .collecting⟩
      ⟨[], [], true, [.finished], ["http://a"], ["http://a"], .collecting⟩ :=
    Step.collect [] [] true [.finished] "http://a" ["http://a"] []
  have t11 : Step ⟨[], [], true, [.finished], ["http://a"], ["http://a"], .collecting⟩
      demoFinal :=
    Step.collect [] [] true [.finished] "http://a" [] ["http://a"]
  have hreach : Reaches (initSys ["http://a", "http://a"] 1) demoFinal :=
    Relation.ReflTransGen.head t1 (Relation.ReflTransGen.head t2
      (Relation.ReflTransGen.head t3 (Relation.ReflTransGen.head t4
        (Relation.ReflTransGen.head t5 (Relation.ReflTransGen.head t6
          (Relation.ReflTransGen.head t7 (Relation.ReflTransGen.head t8
            (Relation.ReflTransGen.head t9 (Relation.ReflTransGen.head t10
              (Relation.ReflTransGen.head t11 Relation.ReflTransGen.refl))))))))))
  obtain ⟨h1, h2⟩ := c1_collection_complete ["http://a", "http://a"] 1 demoFinal
    (by omega) hreach rfl (by decide) rfl
  exact ⟨hreach, h1, h2⟩

/-- Claim C2 (refuted): no reachable state of the pipeline ever leaves the
collection loop, because the main thread's original result sender is never
dropped, so the result channel never disconnects: the drain step cannot
terminate. -/
theorem c2_collector_never_finishes (urls : List String) (w : Nat) (s : Sys)
    (hr : Reaches (initSys urls w) s) : s.phase ≠ MPhase.writing :=
  (sysInv_reach urls w s hr).not_writing

/-- Witness instantiating the non-termination theorem at a concrete run. -/
theorem c2_collector_never_finishes_witness :
    (initSys ["http://example.com"] 1).phase ≠ MPhase.writing :=
  c2_collector_never_finishes ["http://example.com"] 1
    (initSys ["http://example.com"] 1) Relation.ReflTransGen.refl
